import Mathlib

/-!
# Cuoral React Native widget: address builder, navigation gate, session state

A shallow embedding of `src/lib/module/CuoralWidget.jsx`.

* JavaScript strings are modelled as `String` (sequences of Unicode scalar values), i.e. the
  well-formed JavaScript strings.
* A prop that is `undefined` or `null` is `none`; a supplied string is `some s`.
* `URLSearchParams` is a global of the JavaScript runtime, not code of the package.  Its
  deployed serialisers are all modelled and every result is stated for each of them:
  `UrlImpl.reactNative` (React Native's built-in class where it joins
  `encodeURIComponent(name) + '=' + encodeURIComponent(value)` with `&`),
  `UrlImpl.reactNativePlus` (React Native's built-in class where it also writes the escaped
  space `%20` as `+`, so that `a b!` gives `a+b!`) and `UrlImpl.whatwg` (the URL Standard's
  `application/x-www-form-urlencoded` serialiser, which gives `a+b%21`).
* React state is the record `WidgetState`; event handlers are functions on that record.
* The call `Linking.openURL(url)` is recorded in the list of opened addresses returned next to the
  handler's result.
-/

namespace Cuoral

/-! ## JavaScript string primitives -/

/-- ECMAScript `WhiteSpace` and `LineTerminator` code points: what `String.prototype.trim`
strips from both ends. -/
def isJsWhiteSpace (c : Char) : Bool :=
  let n := c.toNat
  n == 0x09 || n == 0x0A || n == 0x0B || n == 0x0C || n == 0x0D || n == 0x20 || n == 0xA0 ||
  n == 0x1680 || (0x2000 ≤ n && n ≤ 0x200A) || n == 0x2028 || n == 0x2029 || n == 0x202F ||
  n == 0x205F || n == 0x3000 || n == 0xFEFF

/-- The characters of a string with leading and trailing white space removed. -/
def trimChars (cs : List Char) : List Char :=
  ((cs.dropWhile isJsWhiteSpace).reverse.dropWhile isJsWhiteSpace).reverse

/-- `String.prototype.trim`. -/
def trim (s : String) : String := ⟨trimChars s.data⟩

/-- `String.prototype.startsWith(p)` at position 0. -/
def startsWith (s p : String) : Bool := p.data.isPrefixOf s.data

/-- JavaScript truthiness of an optional string prop: `undefined`, `null` and `''` are falsy. -/
def truthy : Option String → Bool
  | none => false
  | some s => s != ""

/-- `Number::toString` of an integer-valued number (decimal digits, `-` when negative). -/
def numberToString (n : Int) : String := toString n

/-! ## Percent-encoding -/

/-- UTF-8 bytes of one Unicode scalar value. -/
def utf8EncodeChar (c : Char) : List Nat :=
  let n := c.toNat
  if n < 0x80 then [n]
  else if n < 0x800 then [0xC0 + n / 64, 0x80 + n % 64]
  else if n < 0x10000 then [0xE0 + n / 4096, 0x80 + n / 64 % 64, 0x80 + n % 64]
  else [0xF0 + n / 262144, 0x80 + n / 4096 % 64, 0x80 + n / 64 % 64, 0x80 + n % 64]

/-- Upper-case hexadecimal digit of a value below 16. -/
def hexDigit (n : Nat) : Char :=
  if n < 10 then Char.ofNat (48 + n) else Char.ofNat (55 + n)

/-- One byte written as `%XX`. -/
def percentEncodeByte (b : Nat) : List Char :=
  [Char.ofNat 0x25, hexDigit (b / 16), hexDigit (b % 16)]

/-- ASCII letters and digits. -/
def isAsciiAlnum (n : Nat) : Bool :=
  (0x30 ≤ n && n ≤ 0x39) || (0x41 ≤ n && n ≤ 0x5A) || (0x61 ≤ n && n ≤ 0x7A)

/-- The serialiser behind the runtime's global `URLSearchParams`. -/
inductive UrlImpl where
  | reactNative
  | reactNativePlus
  | whatwg
  deriving DecidableEq, Repr

/-- Characters a serialiser copies unchanged.  `encodeURIComponent` keeps letters, digits and
`- _ . ! ~ * ' ( )`; the form-urlencoded serialiser keeps letters, digits and `* - . _`. -/
def isUnescaped (impl : UrlImpl) (c : Char) : Bool :=
  let n := c.toNat
  match impl with
  | .reactNative | .reactNativePlus =>
      isAsciiAlnum n || n == 0x2D || n == 0x5F || n == 0x2E || n == 0x21 || n == 0x7E ||
      n == 0x2A || n == 0x27 || n == 0x28 || n == 0x29
  | .whatwg => isAsciiAlnum n || n == 0x2A || n == 0x2D || n == 0x2E || n == 0x5F

/-- Serialisation of one character of a name or value.  An escape `%20` comes from a space only
(a literal `%` is written `%25` and no other UTF-8 byte is `0x20`), so replacing `%20` by `+` in
the output is writing `+` for a space. -/
def encodeChar (impl : UrlImpl) (c : Char) : List Char :=
  if isUnescaped impl c then [c]
  else if impl ≠ .reactNative ∧ c.toNat = 0x20 then [Char.ofNat 0x2B]
  else (utf8EncodeChar c).flatMap percentEncodeByte

/-- Serialisation of a name or value: `encodeURIComponent` on React Native (with `+` for the
space on `reactNativePlus`), the form-urlencoded byte serialiser of the URL Standard otherwise. -/
def encodeComponent (impl : UrlImpl) (s : String) : String :=
  ⟨s.data.flatMap (encodeChar impl)⟩

/-! ## URLSearchParams -/

/-- The ordered name/value list held by a `URLSearchParams` object. -/
structure URLSearchParams where
  entries : List (String × String)
  deriving DecidableEq, Repr

namespace URLSearchParams

/-- Result of `new URLSearchParams()`. -/
def empty : URLSearchParams := ⟨[]⟩

/-- `params.append(name, value)`. -/
def append (p : URLSearchParams) (name value : String) : URLSearchParams :=
  ⟨p.entries ++ [(name, value)]⟩

/-- Serialisation of the entry list: `name=value` joined with `&`. -/
def serialize (impl : UrlImpl) : List (String × String) → String
  | [] => ""
  | [(k, v)] => encodeComponent impl k ++ "=" ++ encodeComponent impl v
  | (k, v) :: rest =>
      encodeComponent impl k ++ "=" ++ encodeComponent impl v ++ "&" ++ serialize impl rest

/-- `params.toString()`. -/
def toString (impl : UrlImpl) (p : URLSearchParams) : String :=
  serialize impl p.entries

end URLSearchParams

/-! ## The widget -/

/-- Identity props of `CuoralWidget`. -/
structure IdentityConfig where
  publicKey : Option String
  email : Option String
  firstName : Option String
  lastName : Option String
  deriving DecidableEq, Repr

/-- The guard `!publicKey || publicKey.trim() === ''`. -/
def publicKeyInvalid (publicKey : Option String) : Bool :=
  match publicKey with
  | none => true
  | some k => !truthy (some k) || trim k == ""

/-- The statement `if (v) params.append(name, v)`. -/
def appendIfTruthy (p : URLSearchParams) (name : String) (v : Option String) : URLSearchParams :=
  match v with
  | some s => if truthy (some s) then p.append name s else p
  | none => p

/-- The closure `getCuoralUri` of `CuoralWidget`: `none` is the JavaScript `null`. -/
def getCuoralUri (impl : UrlImpl) (props : IdentityConfig) : Option String :=
  match props.publicKey with
  | none => none
  | some publicKey =>
    if publicKeyInvalid (some publicKey) then none
    else
      let baseUrl := "https://js.cuoral.com/mobile.html"
      let params := URLSearchParams.empty
      let params := params.append "auto_display" "true"
      let params := params.append "key" publicKey
      let params := appendIfTruthy params "email" props.email
      let params := appendIfTruthy params "first_name" props.firstName
      let params := appendIfTruthy params "last_name" props.lastName
      some (baseUrl ++ "?" ++ params.toString impl)

/-- The two `useState` cells of `CuoralWidget`. -/
structure WidgetState where
  isLoading : Bool
  errorMessage : Option String
  deriving DecidableEq, Repr

/-- The initial values `useState(true)` and `useState(null)`. -/
def initialState : WidgetState := ⟨true, none⟩

/-- Body of the validation effect `useEffect(..., [publicKey])`. -/
def publicKeyEffect (props : IdentityConfig) (st : WidgetState) : WidgetState :=
  if publicKeyInvalid props.publicKey then
    { st with errorMessage := some "publicKey must not be empty." }
  else
    { st with errorMessage := none }

/-- Mounting the component: the initial state, then the effect of the first render. -/
def construct (props : IdentityConfig) : WidgetState :=
  publicKeyEffect props initialState

/-- Re-rendering a mounted component with new props: the state cells are kept and the effect runs
again only when its dependency `publicKey` changed. -/
def reconfigure (oldProps newProps : IdentityConfig) (st : WidgetState) : WidgetState :=
  if oldProps.publicKey = newProps.publicKey then st else publicKeyEffect newProps st

/-- Handler `onLoadStart`. -/
def onLoadStart (_st : WidgetState) : WidgetState :=
  { isLoading := true, errorMessage := none }

/-- Handler `onLoadEnd`. -/
def onLoadEnd (st : WidgetState) : WidgetState :=
  { st with isLoading := false }

/-- Handler `onError`, for `nativeEvent.description` and `nativeEvent.code`. -/
def onError (description : String) (code : Int) (_st : WidgetState) : WidgetState :=
  { isLoading := false,
    errorMessage := some ("Error loading Cuoral widget: " ++ description ++ " (Code: " ++
      numberToString code ++ ")") }

/-- Handler `onHttpError`, for `nativeEvent.statusCode` and `nativeEvent.description`. -/
def onHttpError (statusCode : Int) (description : String) (_st : WidgetState) : WidgetState :=
  { isLoading := false,
    errorMessage := some ("HTTP Error: " ++ numberToString statusCode ++ " - " ++ description) }

/-- Handler `onShouldStartLoadWithRequest` on `request.url`: the value returned to the WebView and
the addresses passed to `Linking.openURL`, in call order. -/
def onShouldStartLoadWithRequest (url : String) : Bool × List String :=
  if startsWith url "https://js.cuoral.com/" || startsWith url "about:blank" then (true, [])
  else (false, [url])

/-- What the component shows. -/
inductive SessionState where
  | idle
  | loading
  | loaded
  | error (reason : String)
  deriving DecidableEq, Repr

/-- The render branches of `CuoralWidget`: the error text when `errorMessage` is truthy, nothing
when hidden, otherwise the WebView with or without the loading overlay. -/
def sessionState (showWidget : Bool) (st : WidgetState) : SessionState :=
  match st.errorMessage with
  | some m =>
    if truthy (some m) then .error m
    else if !showWidget then .idle
    else if st.isLoading then .loading else .loaded
  | none =>
    if !showWidget then .idle
    else if st.isLoading then .loading else .loaded

/-! ## Reading a query string back (URL Standard)

The widget page that receives the address decodes its query with the URL Standard's
`application/x-www-form-urlencoded` parser.  It is modelled here to state what an address
decodes to. -/

/-- Value of a hexadecimal digit. -/
def hexValue (c : Char) : Option Nat :=
  let n := c.toNat
  if 0x30 ≤ n ∧ n ≤ 0x39 then some (n - 0x30)
  else if 0x41 ≤ n ∧ n ≤ 0x46 then some (n - 0x37)
  else if 0x61 ≤ n ∧ n ≤ 0x66 then some (n - 0x57)
  else none

/-- The byte written by two hexadecimal digits at the head of the input, if any. -/
def hexPair : List Char → Option Nat
  | h :: l :: _ =>
    match hexValue h, hexValue l with
    | some a, some b => some (16 * a + b)
    | _, _ => none
  | _ => none

/-- Percent-decoding, with `skip` characters of the input already consumed: `%XX` with two
hexadecimal digits is one byte (and skips the two digits), any other character contributes its
UTF-8 bytes. -/
def percentDecodeFrom : Nat → List Char → List Nat
  | _, [] => []
  | k + 1, _ :: rest => percentDecodeFrom k rest
  | 0, c :: rest =>
    if c.toNat = 0x25 then
      match hexPair rest with
      | some b => b :: percentDecodeFrom 2 rest
      | none => utf8EncodeChar c ++ percentDecodeFrom 0 rest
    else utf8EncodeChar c ++ percentDecodeFrom 0 rest

/-- Percent-decoding of a string into bytes. -/
def percentDecode (cs : List Char) : List Nat := percentDecodeFrom 0 cs

/-- State of the UTF-8 decoder inside a multi-byte sequence. -/
structure Utf8State where
  codePoint : Nat
  bytesNeeded : Nat
  lower : Nat
  upper : Nat

/-- U+FFFD, emitted for every malformed sequence. -/
def replacementChar : Char := Char.ofNat 0xFFFD

/-- Decoder step on a byte that starts a sequence. -/
def utf8Lead (b : Nat) : Char ⊕ Utf8State :=
  if b ≤ 0x7F then .inl (Char.ofNat b)
  else if 0xC2 ≤ b ∧ b ≤ 0xDF then .inr ⟨b % 32, 1, 0x80, 0xBF⟩
  else if 0xE0 ≤ b ∧ b ≤ 0xEF then
    .inr ⟨b % 16, 2, if b = 0xE0 then 0xA0 else 0x80, if b = 0xED then 0x9F else 0xBF⟩
  else if 0xF0 ≤ b ∧ b ≤ 0xF4 then
    .inr ⟨b % 8, 3, if b = 0xF0 then 0x90 else 0x80, if b = 0xF4 then 0x8F else 0xBF⟩
  else .inl replacementChar

/-- The URL Standard's UTF-8 decoder (no BOM handling), run from a decoder state. -/
def utf8DecodeFrom : Option Utf8State → List Nat → List Char
  | none, [] => []
  | some _, [] => [replacementChar]
  | none, b :: rest =>
    match utf8Lead b with
    | .inl c => c :: utf8DecodeFrom none rest
    | .inr st => utf8DecodeFrom (some st) rest
  | some st, b :: rest =>
    if b < st.lower ∨ st.upper < b then
      match utf8Lead b with
      | .inl c => replacementChar :: c :: utf8DecodeFrom none rest
      | .inr st2 => replacementChar :: utf8DecodeFrom (some st2) rest
    else if st.bytesNeeded ≤ 1 then
      Char.ofNat (st.codePoint * 64 + b % 64) :: utf8DecodeFrom none rest
    else
      utf8DecodeFrom (some ⟨st.codePoint * 64 + b % 64, st.bytesNeeded - 1, 0x80, 0xBF⟩) rest

/-- Pieces of a character list between occurrences of a separator. -/
def splitOnChar (sep : Char) : List Char → List (List Char)
  | [] => [[]]
  | c :: cs =>
    if c = sep then [] :: splitOnChar sep cs
    else
      match splitOnChar sep cs with
      | [] => [[c]]
      | h :: t => (c :: h) :: t

/-- The parts before and after the first occurrence of a separator. -/
def splitAtFirst (sep : Char) (cs : List Char) : List Char × List Char :=
  (cs.takeWhile (fun c => c != sep), (cs.dropWhile (fun c => c != sep)).drop 1)

/-- The parser's replacement of `+` by a space. -/
def plusToSpace (c : Char) : Char :=
  if c.toNat = 0x2B then Char.ofNat 0x20 else c

/-- Decoding of one name or value. -/
def decodeComponent (cs : List Char) : String :=
  ⟨utf8DecodeFrom none (percentDecode (cs.map plusToSpace))⟩

/-- The `application/x-www-form-urlencoded` parser: the name/value list of a query string. -/
def parseQuery (q : String) : List (String × String) :=
  ((splitOnChar (Char.ofNat 0x26) q.data).filter (fun piece => !piece.isEmpty)).map
    (fun piece =>
      (decodeComponent (splitAtFirst (Char.ofNat 0x3D) piece).1,
       decodeComponent (splitAtFirst (Char.ofNat 0x3D) piece).2))

/-- The query of an address: what follows the first `?` of the part before the first `#`. -/
def queryOf (url : String) : String :=
  ⟨((url.data.takeWhile (fun c => c != Char.ofNat 0x23)).dropWhile
    (fun c => c != Char.ofNat 0x3F)).drop 1⟩

/-! ## Vocabulary of the statements -/

/-- Characters that can occur in a serialised name or value: letters, digits,
`- _ . ! ~ * ' ( )`, and the escapes `%` and `+`. -/
def isComponentChar (c : Char) : Bool :=
  let n := c.toNat
  isAsciiAlnum n || n == 0x2D || n == 0x5F || n == 0x2E || n == 0x21 || n == 0x7E ||
  n == 0x2A || n == 0x27 || n == 0x28 || n == 0x29 || n == 0x25 || n == 0x2B

/-- Characters of one serialised entry, `name=value`. -/
def entryChars (impl : UrlImpl) (e : String × String) : List Char :=
  (encodeComponent impl e.1).data ++ Char.ofNat 0x3D :: (encodeComponent impl e.2).data

/-- The entry a field contributes: one entry when it is supplied and non-empty. -/
def fieldEntry (name : String) : Option String → List (String × String)
  | some v => if v = "" then [] else [(name, v)]
  | none => []

/-- The text a field adds to the address: `label` and the serialised value when the field is
supplied and non-empty, nothing otherwise. -/
def fieldText (impl : UrlImpl) (label : String) : Option String → String
  | some v => if v = "" then "" else label ++ encodeComponent impl v
  | none => ""

/-! ## UTF-8 and percent-encoding round trip -/

theorem hexValue_hexDigit (n : Nat) (h : n < 16) : hexValue (hexDigit n) = some n := by
  interval_cases n <;> rfl

theorem utf8EncodeChar_lt (c : Char) : ∀ b ∈ utf8EncodeChar c, b < 256 := by
  have hv : c.toNat < 0x110000 := by
    have := c.valid
    simp only [Char.toNat]
    rcases this with h | h
    · have : c.val.toNat < 55296 := h
      omega
    · exact h.2
  intro b hb
  unfold utf8EncodeChar at hb
  simp only at hb
  split_ifs at hb <;> simp at hb <;> omega

theorem char_toNat_valid (c : Char) :
    c.toNat < 0xD800 ∨ (0xDFFF < c.toNat ∧ c.toNat < 0x110000) := c.valid

theorem utf8Decode_encodeChar (c : Char) (rest : List Nat) :
    utf8DecodeFrom none (utf8EncodeChar c ++ rest) = c :: utf8DecodeFrom none rest := by
  have hv := char_toNat_valid c
  have hc : ∀ m, m = c.toNat → Char.ofNat m = c := by
    intro m hm
    rw [hm, Char.ofNat_toNat]
  unfold utf8EncodeChar
  simp only
  split_ifs with h1 h2 h3
  · simp only [List.singleton_append, utf8DecodeFrom, utf8Lead]
    rw [if_pos (by omega)]
    simp only [hc _ rfl]
    rfl
  · simp only [List.cons_append, List.nil_append, utf8DecodeFrom, utf8Lead]
    rw [if_neg (by omega), if_pos (by omega)]
    simp only
    rw [if_neg (by omega), if_pos (by omega)]
    congr 1
    apply hc
    omega
  · simp only [List.cons_append, List.nil_append, utf8DecodeFrom, utf8Lead]
    rw [if_neg (by omega), if_neg (by omega), if_pos (by omega)]
    simp only
    rw [if_neg (by split_ifs <;> omega), if_neg (by omega)]
    rw [if_neg (by omega), if_pos (by omega)]
    congr 1
    apply hc
    omega
  · simp only [List.cons_append, List.nil_append, utf8DecodeFrom, utf8Lead]
    rw [if_neg (by omega), if_neg (by omega), if_neg (by omega), if_pos (by omega)]
    simp only
    rw [if_neg (by split_ifs <;> omega), if_neg (by omega)]
    rw [if_neg (by omega), if_neg (by omega)]
    rw [if_neg (by omega), if_pos (by omega)]
    congr 1
    apply hc
    omega

theorem utf8Decode_encode (cs : List Char) :
    utf8DecodeFrom none (cs.flatMap utf8EncodeChar) = cs := by
  induction cs with
  | nil => rfl
  | cons c cs ih => rw [List.flatMap_cons, utf8Decode_encodeChar, ih]

theorem plusToSpace_hexDigit (n : Nat) (h : n < 16) : plusToSpace (hexDigit n) = hexDigit n := by
  interval_cases n <;> rfl

theorem percentDecodeFrom_succ (k : Nat) (c : Char) (rest : List Char) :
    percentDecodeFrom (k + 1) (c :: rest) = percentDecodeFrom k rest := rfl

theorem percentDecodeFrom_percent (c : Char) (rest : List Char) (b : Nat)
    (hc : c.toNat = 0x25) (hp : hexPair rest = some b) :
    percentDecodeFrom 0 (c :: rest) = b :: percentDecodeFrom 2 rest := by
  rw [percentDecodeFrom, if_pos hc, hp]

theorem percentDecodeFrom_plain (c : Char) (rest : List Char) (hc : c.toNat ≠ 0x25) :
    percentDecodeFrom 0 (c :: rest) = utf8EncodeChar c ++ percentDecodeFrom 0 rest := by
  rw [percentDecodeFrom, if_neg hc]

theorem hexPair_hexDigit (a b : Nat) (ha : a < 16) (hb : b < 16) (rest : List Char) :
    hexPair (hexDigit a :: hexDigit b :: rest) = some (16 * a + b) := by
  rw [hexPair, hexValue_hexDigit a ha, hexValue_hexDigit b hb]

theorem percentDecode_encodeByte (b : Nat) (hb : b < 256) (rest : List Char) :
    percentDecodeFrom 0 ((percentEncodeByte b).map plusToSpace ++ rest)
      = b :: percentDecodeFrom 0 rest := by
  have h1 : b / 16 < 16 := by omega
  have h2 : b % 16 < 16 := by omega
  have hp : plusToSpace (Char.ofNat 0x25) = Char.ofNat 0x25 := rfl
  have ht : (Char.ofNat 0x25).toNat = 0x25 := rfl
  have hb2 : 16 * (b / 16) + b % 16 = b := by omega
  simp only [percentEncodeByte, List.map_cons, List.map_nil, List.cons_append, List.nil_append,
    plusToSpace_hexDigit _ h1, plusToSpace_hexDigit _ h2, hp]
  rw [percentDecodeFrom_percent _ _ _ ht (hexPair_hexDigit _ _ h1 h2 rest), hb2,
    percentDecodeFrom_succ, percentDecodeFrom_succ]

theorem percentDecode_encodeBytes (bs : List Nat) (hbs : ∀ b ∈ bs, b < 256) (rest : List Char) :
    percentDecodeFrom 0 ((bs.flatMap percentEncodeByte).map plusToSpace ++ rest)
      = bs ++ percentDecodeFrom 0 rest := by
  induction bs with
  | nil => rfl
  | cons b bs ih =>
    rw [List.flatMap_cons, List.map_append, List.append_assoc,
      percentDecode_encodeByte b (hbs b (List.mem_cons_self _ _)),
      ih (fun x hx => hbs x (List.mem_cons_of_mem _ hx))]
    rfl

theorem isUnescaped_toNat (impl : UrlImpl) (c : Char) (h : isUnescaped impl c = true) :
    c.toNat ≠ 0x25 ∧ c.toNat ≠ 0x2B := by
  cases impl <;>
    simp only [isUnescaped, isAsciiAlnum, Bool.or_eq_true, Bool.and_eq_true, decide_eq_true_eq,
      beq_iff_eq] at h <;> omega

theorem percentDecode_encodeChar (impl : UrlImpl) (c : Char) (rest : List Char) :
    percentDecodeFrom 0 ((encodeChar impl c).map plusToSpace ++ rest)
      = utf8EncodeChar c ++ percentDecodeFrom 0 rest := by
  unfold encodeChar
  split_ifs with h1 h2
  · have h := isUnescaped_toNat impl c h1
    have hp : plusToSpace c = c := by rw [plusToSpace, if_neg h.2]
    simp only [List.map_cons, List.map_nil, List.cons_append, List.nil_append, hp]
    exact percentDecodeFrom_plain c rest h.1
  · have hc : c = Char.ofNat 0x20 := by rw [← h2.2, Char.ofNat_toNat]
    subst hc
    rfl
  · exact percentDecode_encodeBytes _ (utf8EncodeChar_lt c) rest

theorem percentDecode_encode (impl : UrlImpl) (cs : List Char) :
    percentDecode ((cs.flatMap (encodeChar impl)).map plusToSpace) = cs.flatMap utf8EncodeChar := by
  unfold percentDecode
  induction cs with
  | nil => rfl
  | cons c cs ih =>
    rw [List.flatMap_cons, List.map_append, percentDecode_encodeChar, ih, List.flatMap_cons]

/-- Decoding a serialised name or value gives the name or value back. -/
theorem decodeComponent_encodeComponent (impl : UrlImpl) (s : String) :
    decodeComponent (encodeComponent impl s).data = s := by
  simp only [decodeComponent, encodeComponent, percentDecode_encode, utf8Decode_encode]

theorem isComponentChar_hexDigit (n : Nat) (h : n < 16) : isComponentChar (hexDigit n) = true := by
  interval_cases n <;> rfl

theorem isComponentChar_encodeChar (impl : UrlImpl) (c : Char) :
    ∀ x ∈ encodeChar impl c, isComponentChar x = true := by
  intro x hx
  unfold encodeChar at hx
  split_ifs at hx with h1 h2
  · rw [List.mem_singleton] at hx
    subst hx
    cases impl <;>
      simp only [isUnescaped, isAsciiAlnum, Bool.or_eq_true, Bool.and_eq_true, decide_eq_true_eq,
        beq_iff_eq] at h1 <;>
      simp only [isComponentChar, isAsciiAlnum, Bool.or_eq_true, Bool.and_eq_true,
        decide_eq_true_eq, beq_iff_eq] <;> omega
  · rw [List.mem_singleton] at hx
    subst hx
    rfl
  · rw [List.mem_flatMap] at hx
    obtain ⟨b, hb, hxb⟩ := hx
    have hlt := utf8EncodeChar_lt c b hb
    simp only [percentEncodeByte, List.mem_cons, List.mem_singleton, List.not_mem_nil,
      or_false] at hxb
    rcases hxb with rfl | rfl | rfl
    · rfl
    · exact isComponentChar_hexDigit _ (by omega)
    · exact isComponentChar_hexDigit _ (by omega)

theorem isComponentChar_encodeComponent (impl : UrlImpl) (s : String) :
    ∀ x ∈ (encodeComponent impl s).data, isComponentChar x = true := by
  intro x hx
  simp only [encodeComponent, List.mem_flatMap] at hx
  obtain ⟨c, _, hxc⟩ := hx
  exact isComponentChar_encodeChar impl c x hxc

theorem splitOnChar_sep (sep : Char) (a b : List Char) (ha : ∀ x ∈ a, x ≠ sep) :
    splitOnChar sep (a ++ sep :: b) = a :: splitOnChar sep b := by
  induction a with
  | nil => simp only [List.nil_append, splitOnChar, if_true]
  | cons c a ih =>
    have hc : c ≠ sep := ha c (List.mem_cons_self _ _)
    rw [List.cons_append, splitOnChar, if_neg hc, ih (fun x hx => ha x (List.mem_cons_of_mem _ hx))]

theorem splitOnChar_none (sep : Char) (a : List Char) (ha : ∀ x ∈ a, x ≠ sep) :
    splitOnChar sep a = [a] := by
  induction a with
  | nil => rfl
  | cons c a ih =>
    have hc : c ≠ sep := ha c (List.mem_cons_self _ _)
    rw [splitOnChar, if_neg hc, ih (fun x hx => ha x (List.mem_cons_of_mem _ hx))]

theorem splitAtFirst_sep (sep : Char) (a b : List Char) (ha : ∀ x ∈ a, x ≠ sep) :
    splitAtFirst sep (a ++ sep :: b) = (a, b) := by
  induction a with
  | nil => simp [splitAtFirst]
  | cons c a ih =>
    have hc : c ≠ sep := ha c (List.mem_cons_self _ _)
    have ih2 := ih (fun x hx => ha x (List.mem_cons_of_mem _ hx))
    simp only [splitAtFirst, Prod.mk.injEq] at ih2 ⊢
    simp only [List.cons_append, List.takeWhile_cons, List.dropWhile_cons, bne_iff_ne, ne_eq, hc,
      not_false_eq_true, if_true, ih2.1, ih2.2, and_self, decide_True]

theorem isComponentChar_ne (x : Char) (h : isComponentChar x = true) :
    x ≠ Char.ofNat 0x26 ∧ x ≠ Char.ofNat 0x3D ∧ x ≠ Char.ofNat 0x23 ∧ x ≠ Char.ofNat 0x3F ∧
    x ≠ Char.ofNat 0x20 ∧ x ≠ Char.ofNat 0x40 := by
  refine ⟨?_, ?_, ?_, ?_, ?_, ?_⟩ <;> (intro he; subst he; revert h; decide)

theorem serialize_data_single (impl : UrlImpl) (e : String × String) :
    (URLSearchParams.serialize impl [e]).data = entryChars impl e := by
  obtain ⟨k, v⟩ := e
  simp only [URLSearchParams.serialize, String.data_append, entryChars, List.append_assoc]
  rfl

theorem serialize_data_cons (impl : UrlImpl) (e e2 : String × String)
    (rest : List (String × String)) :
    (URLSearchParams.serialize impl (e :: e2 :: rest)).data
      = entryChars impl e ++ Char.ofNat 0x26 :: (URLSearchParams.serialize impl (e2 :: rest)).data := by
  obtain ⟨k, v⟩ := e
  simp only [URLSearchParams.serialize, String.data_append, entryChars, List.append_assoc]
  rfl

theorem entryChars_ne_amp (impl : UrlImpl) (e : String × String) :
    ∀ x ∈ entryChars impl e, x ≠ Char.ofNat 0x26 := by
  intro x hx
  simp only [entryChars, List.mem_append, List.mem_cons] at hx
  rcases hx with h | h | h
  · exact (isComponentChar_ne x (isComponentChar_encodeComponent impl _ x h)).1
  · subst h; decide
  · exact (isComponentChar_ne x (isComponentChar_encodeComponent impl _ x h)).1

theorem decode_entryChars (impl : UrlImpl) (e : String × String) :
    (decodeComponent (splitAtFirst (Char.ofNat 0x3D) (entryChars impl e)).1,
     decodeComponent (splitAtFirst (Char.ofNat 0x3D) (entryChars impl e)).2) = e := by
  have hk : ∀ x ∈ (encodeComponent impl e.1).data, x ≠ Char.ofNat 0x3D := fun x hx =>
    (isComponentChar_ne x (isComponentChar_encodeComponent impl _ x hx)).2.1
  rw [entryChars, splitAtFirst_sep _ _ _ hk, decodeComponent_encodeComponent,
    decodeComponent_encodeComponent]

theorem entryChars_isEmpty (impl : UrlImpl) (e : String × String) :
    (entryChars impl e).isEmpty = false := by
  cases h : (encodeComponent impl e.1).data <;> simp [entryChars, h]

/-- Parsing the serialisation of an entry list gives the entry list back, for each serialiser. -/
theorem parseQuery_serialize (impl : UrlImpl) (ps : List (String × String)) :
    parseQuery (URLSearchParams.serialize impl ps) = ps := by
  induction ps with
  | nil => rfl
  | cons e rest ih =>
    cases rest with
    | nil =>
      simp only [parseQuery, serialize_data_single,
        splitOnChar_none _ _ (entryChars_ne_amp impl e), List.filter_cons, entryChars_isEmpty,
        Bool.not_false, if_true, List.filter_nil, List.map_cons, List.map_nil, decode_entryChars]
    | cons e2 rest =>
      simp only [parseQuery] at ih
      simp only [parseQuery, serialize_data_cons,
        splitOnChar_sep _ _ _ (entryChars_ne_amp impl e), List.filter_cons, entryChars_isEmpty,
        Bool.not_false, if_true, List.map_cons, decode_entryChars, ih]

/-! ## The address builder -/

theorem publicKeyInvalid_some (pk : String) :
    publicKeyInvalid (some pk) = true ↔ trim pk = "" := by
  simp only [publicKeyInvalid, truthy, Bool.or_eq_true, Bool.not_eq_true', bne_eq_false_iff_eq,
    beq_iff_eq]
  constructor
  · rintro (h | h)
    · rw [h]; rfl
    · exact h
  · exact Or.inr

theorem appendIfTruthy_entries (p : URLSearchParams) (name : String) (v : Option String) :
    (appendIfTruthy p name v).entries = p.entries ++ fieldEntry name v := by
  cases v with
  | none => simp [appendIfTruthy, fieldEntry]
  | some s =>
    by_cases hs : s = ""
    · simp [appendIfTruthy, fieldEntry, truthy, hs]
    · simp [appendIfTruthy, fieldEntry, truthy, hs, URLSearchParams.append]

/-- The address of a valid config is the base, `?`, and the serialised entry list. -/
theorem getCuoralUri_entries (impl : UrlImpl) (cfg : IdentityConfig) (pk : String)
    (hpk : cfg.publicKey = some pk) (hne : trim pk ≠ "") :
    getCuoralUri impl cfg = some ("https://js.cuoral.com/mobile.html" ++ "?" ++
      URLSearchParams.serialize impl ([("auto_display", "true"), ("key", pk)] ++
        fieldEntry "email" cfg.email ++ fieldEntry "first_name" cfg.firstName ++
        fieldEntry "last_name" cfg.lastName)) := by
  have hinv : publicKeyInvalid (some pk) = false := by
    rw [Bool.eq_false_iff]
    exact fun h => hne ((publicKeyInvalid_some pk).1 h)
  simp only [getCuoralUri, hpk, hinv, Bool.false_eq_true, if_false, URLSearchParams.toString,
    appendIfTruthy_entries, URLSearchParams.append, URLSearchParams.empty, List.nil_append,
    List.append_assoc, List.cons_append]

theorem serialize_cons_cons (impl : UrlImpl) (k v : String) (e2 : String × String)
    (rest : List (String × String)) :
    URLSearchParams.serialize impl ((k, v) :: e2 :: rest) = encodeComponent impl k ++ "=" ++
      encodeComponent impl v ++ "&" ++ URLSearchParams.serialize impl (e2 :: rest) := rfl

theorem serialize_snoc (impl : UrlImpl) (ps : List (String × String)) (h : ps ≠ [])
    (k v : String) :
    URLSearchParams.serialize impl (ps ++ [(k, v)]) = URLSearchParams.serialize impl ps ++
      ("&" ++ (encodeComponent impl k ++ ("=" ++ encodeComponent impl v))) := by
  induction ps with
  | nil => exact absurd rfl h
  | cons e rest ih =>
    obtain ⟨a, b⟩ := e
    cases rest with
    | nil => simp only [List.cons_append, List.nil_append, URLSearchParams.serialize,
        String.append_assoc]
    | cons e2 rest =>
      have ih2 := ih (List.cons_ne_nil _ _)
      simp only [List.cons_append] at ih2
      rw [List.cons_append, List.cons_append, serialize_cons_cons, ih2, serialize_cons_cons]
      simp only [String.append_assoc]

theorem serialize_fieldEntry (impl : UrlImpl) (ps : List (String × String)) (h : ps ≠ [])
    (name : String) (v : Option String) :
    URLSearchParams.serialize impl (ps ++ fieldEntry name v) = URLSearchParams.serialize impl ps ++
      fieldText impl ("&" ++ encodeComponent impl name ++ "=") v := by
  cases v with
  | none => simp [fieldEntry, fieldText]
  | some s =>
    by_cases hs : s = ""
    · simp [fieldEntry, fieldText, hs]
    · simp only [fieldEntry, fieldText, hs, if_false, serialize_snoc impl ps h,
        String.append_assoc]

theorem encodeComponent_names (impl : UrlImpl) :
    encodeComponent impl "auto_display" = "auto_display" ∧ encodeComponent impl "true" = "true" ∧
    encodeComponent impl "key" = "key" ∧ encodeComponent impl "email" = "email" ∧
    encodeComponent impl "first_name" = "first_name" ∧
    encodeComponent impl "last_name" = "last_name" := by
  cases impl <;> decide

/-! ## Claims about the address builder -/

/-- C1 (counterexample): with `email` supplied as the empty string the address carries no `email`
parameter, where the claim requires `&email=` for every supplied email. -/
theorem getCuoralUri_empty_email_counterexample :
    getCuoralUri .reactNative ⟨some "abc123", some "", none, none⟩
      = some "https://js.cuoral.com/mobile.html?auto_display=true&key=abc123" ∧
    getCuoralUri .reactNative ⟨some "abc123", some "", none, none⟩
      ≠ some ("https://js.cuoral.com/mobile.html?auto_display=true&key=abc123" ++ "&email=" ++
          encodeComponent .reactNative "") ∧
    getCuoralUri .whatwg ⟨some "abc123", some "", none, none⟩
      = some "https://js.cuoral.com/mobile.html?auto_display=true&key=abc123" := by
  decide

/-- The address of a valid config, written out. -/
theorem getCuoralUri_text (impl : UrlImpl) (cfg : IdentityConfig) (pk : String)
    (hpk : cfg.publicKey = some pk) (hne : trim pk ≠ "") :
    getCuoralUri impl cfg = some ("https://js.cuoral.com/mobile.html?auto_display=true&key=" ++
      encodeComponent impl pk ++ fieldText impl "&email=" cfg.email ++
      fieldText impl "&first_name=" cfg.firstName ++ fieldText impl "&last_name=" cfg.lastName) := by
  obtain ⟨h1, h2, h3, h4, h5, h6⟩ := encodeComponent_names impl
  have hb : "https://js.cuoral.com/mobile.html?auto_display=true&key="
      = "https://js.cuoral.com/mobile.html" ++ "?" ++ ("auto_display" ++ "=" ++ "true" ++ "&" ++
        ("key" ++ "=")) := by decide
  have he : "&email=" = "&" ++ "email" ++ "=" := by decide
  have hf : "&first_name=" = "&" ++ "first_name" ++ "=" := by decide
  have hl : "&last_name=" = "&" ++ "last_name" ++ "=" := by decide
  rw [getCuoralUri_entries impl cfg pk hpk hne,
    serialize_fieldEntry impl _ (by simp) "last_name",
    serialize_fieldEntry impl _ (by simp) "first_name",
    serialize_fieldEntry impl _ (by simp) "email", hb, he, hf, hl, h4, h5, h6]
  simp only [URLSearchParams.serialize, h1, h2, h3, String.append_assoc]

/-- C1 (amended): for every config whose `publicKey` is non-empty after trimming, and for each
`URLSearchParams` serialiser, `getCuoralUri` returns exactly
`https://js.cuoral.com/mobile.html?auto_display=true&key=` followed by the serialised `publicKey`,
then `&email=`, `&first_name=`, `&last_name=` with the serialised value for each of these fields
that is supplied and non-empty, in that order and with nothing else. -/
theorem getCuoralUri_address (impl : UrlImpl) (cfg : IdentityConfig) (pk : String)
    (hpk : cfg.publicKey = some pk) (hne : trim pk ≠ "") :
    getCuoralUri impl cfg = some ("https://js.cuoral.com/mobile.html?auto_display=true&key=" ++
      encodeComponent impl pk ++ fieldText impl "&email=" cfg.email ++
      fieldText impl "&first_name=" cfg.firstName ++ fieldText impl "&last_name=" cfg.lastName) :=
  getCuoralUri_text impl cfg pk hpk hne

/-! ## Shape of a serialised query -/

theorem count_encodeComponent (impl : UrlImpl) (s : String) (x : Char)
    (hx : isComponentChar x = false) : (encodeComponent impl s).data.count x = 0 := by
  rw [List.count_eq_zero]
  intro hmem
  rw [isComponentChar_encodeComponent impl s x hmem] at hx
  exact Bool.noConfusion hx

theorem count_entryChars (impl : UrlImpl) (e : String × String) (x : Char)
    (hx : isComponentChar x = false) :
    (entryChars impl e).count x = if x = Char.ofNat 0x3D then 1 else 0 := by
  rw [entryChars, List.count_append, List.count_cons, count_encodeComponent impl _ x hx,
    count_encodeComponent impl _ x hx]
  by_cases h : x = Char.ofNat 0x3D
  · simp [h]
  · have h2 : ¬ Char.ofNat 0x3D = x := fun h3 => h h3.symm
    simp [h, h2]

theorem count_serialize (impl : UrlImpl) (ps : List (String × String)) (x : Char)
    (hx : isComponentChar x = false) :
    (URLSearchParams.serialize impl ps).data.count x =
      if x = Char.ofNat 0x3D then ps.length
      else if x = Char.ofNat 0x26 then ps.length - 1 else 0 := by
  induction ps with
  | nil => simp [URLSearchParams.serialize]
  | cons e rest ih =>
    cases rest with
    | nil =>
      rw [serialize_data_single, count_entryChars impl e x hx]
      simp
    | cons e2 rest =>
      rw [serialize_data_cons, List.count_append, List.count_cons, ih,
        count_entryChars impl e x hx]
      by_cases h1 : x = Char.ofNat 0x3D
      · subst h1
        simp only [if_true, List.length_cons]
        rw [if_neg (by decide)]
        omega
      · by_cases h2 : x = Char.ofNat 0x26
        · subst h2
          have hne : ¬ (Char.ofNat 0x26 = Char.ofNat 0x3D) := by decide
          simp only [List.length_cons, beq_self_eq_true, if_true, if_neg hne]
          omega
        · have h3 : (Char.ofNat 0x26 == x) = false := by
            rw [beq_eq_false_iff_ne]
            exact fun h3 => h2 h3.symm
          simp [h1, h2, h3]

theorem queryOf_address (q : String) (hq : ∀ x ∈ q.data, x ≠ Char.ofNat 0x23) :
    queryOf ("https://js.cuoral.com/mobile.html" ++ "?" ++ q) = q := by
  have hd : ("https://js.cuoral.com/mobile.html" ++ "?" ++ q).data
      = "https://js.cuoral.com/mobile.html".data ++ Char.ofNat 0x3F :: q.data := by
    simp only [String.data_append, List.append_assoc]
    rfl
  have hbase : ∀ x ∈ "https://js.cuoral.com/mobile.html".data, x ≠ Char.ofNat 0x23 := by decide
  have ht : ("https://js.cuoral.com/mobile.html".data ++ Char.ofNat 0x3F :: q.data).takeWhile
      (fun c => c != Char.ofNat 0x23)
      = "https://js.cuoral.com/mobile.html".data ++ Char.ofNat 0x3F :: q.data := by
    rw [List.takeWhile_eq_self_iff]
    intro x hx
    rcases List.mem_append.1 hx with h | h
    · simpa using hbase x h
    · rcases List.mem_cons.1 h with h2 | h2
      · rw [h2]; decide
      · simpa using hq x h2
  have hs := splitAtFirst_sep (Char.ofNat 0x3F) "https://js.cuoral.com/mobile.html".data q.data
    (by decide)
  simp only [splitAtFirst, Prod.mk.injEq] at hs
  simp only [queryOf, hd, ht, hs.2]

theorem address_count (q : String) (x : Char) :
    ("https://js.cuoral.com/mobile.html" ++ "?" ++ q).data.count x =
      "https://js.cuoral.com/mobile.html?".data.count x + q.data.count x := by
  have hd : ("https://js.cuoral.com/mobile.html" ++ "?" ++ q).data
      = "https://js.cuoral.com/mobile.html?".data ++ q.data := by
    simp only [String.data_append]
    rfl
  rw [hd, List.count_append]

theorem address_mem (q : String) (x : Char)
    (hx : x ∈ ("https://js.cuoral.com/mobile.html" ++ "?" ++ q).data) :
    x ∈ "https://js.cuoral.com/mobile.html?".data ∨ x ∈ q.data := by
  have hd : ("https://js.cuoral.com/mobile.html" ++ "?" ++ q).data
      = "https://js.cuoral.com/mobile.html?".data ++ q.data := by
    simp only [String.data_append]
    rfl
  rw [hd, List.mem_append] at hx
  exact hx

theorem serialize_mem (impl : UrlImpl) (ps : List (String × String)) (x : Char)
    (hx : x ∈ (URLSearchParams.serialize impl ps).data) :
    isComponentChar x = true ∨ x = Char.ofNat 0x3D ∨ x = Char.ofNat 0x26 := by
  by_cases hc : isComponentChar x = true
  · exact Or.inl hc
  · right
    rw [Bool.not_eq_true] at hc
    have hcount := count_serialize impl ps x hc
    by_cases h1 : x = Char.ofNat 0x3D
    · exact Or.inl h1
    · by_cases h2 : x = Char.ofNat 0x26
      · exact Or.inr h2
      · rw [if_neg h1, if_neg h2, List.count_eq_zero] at hcount
        exact absurd hx hcount

/-- C1 (witness): scenario 1 of the specification. -/
theorem getCuoralUri_address_witness :
    trim "abc123" ≠ "" ∧
    getCuoralUri .reactNative ⟨some "abc123", some "a@b.com", none, none⟩
      = some "https://js.cuoral.com/mobile.html?auto_display=true&key=abc123&email=a%40b.com" :=
  ⟨by decide,
    (getCuoralUri_address .reactNative ⟨some "abc123", some "a@b.com", none, none⟩ "abc123" rfl
      (by decide)).trans (by decide)⟩

theorem trimChars_eq_nil_iff (cs : List Char) :
    trimChars cs = [] ↔ ∀ c ∈ cs, isJsWhiteSpace c = true := by
  unfold trimChars
  rw [List.reverse_eq_nil_iff, List.dropWhile_eq_nil_iff]
  constructor
  · intro h c hc
    by_contra hw
    have hne : cs.dropWhile isJsWhiteSpace ≠ [] := by
      intro hnil
      rw [List.dropWhile_eq_nil_iff] at hnil
      exact hw (hnil c hc)
    obtain ⟨x, hx⟩ := List.exists_mem_of_ne_nil _ hne
    have hhead := List.head_dropWhile_not isJsWhiteSpace cs hne
    have hmem := List.head_mem hne
    rw [h _ (List.mem_reverse.2 hmem)] at hhead
    exact Bool.noConfusion hhead
  · intro h c hc
    rw [List.mem_reverse] at hc
    exact h c ((List.dropWhile_sublist _).subset hc)

theorem trim_eq_empty_iff (s : String) :
    trim s = "" ↔ ∀ c ∈ s.data, isJsWhiteSpace c = true := by
  rw [← trimChars_eq_nil_iff]
  constructor
  · intro h
    have := congrArg String.data h
    exact this
  · intro h
    simp only [trim, h]

/-- C2: `getCuoralUri` returns `null` exactly when `publicKey` is absent or empty after trimming
white space (all of its characters are white space), and returns an address for every other
config. -/
theorem getCuoralUri_none_iff (impl : UrlImpl) (cfg : IdentityConfig) :
    (getCuoralUri impl cfg = none ↔
      (cfg.publicKey = none ∨ ∃ pk, cfg.publicKey = some pk ∧ trim pk = "")) ∧
    ((∃ addr, getCuoralUri impl cfg = some addr) ↔
      ¬ (cfg.publicKey = none ∨ ∃ pk, cfg.publicKey = some pk ∧ trim pk = "")) ∧
    (∀ pk : String, trim pk = "" ↔ ∀ c ∈ pk.data, isJsWhiteSpace c = true) := by
  refine ⟨?_, ?_, trim_eq_empty_iff⟩
  · cases hk : cfg.publicKey with
    | none => simp [getCuoralUri, hk]
    | some pk =>
      by_cases ht : trim pk = ""
      · have hinv := (publicKeyInvalid_some pk).2 ht
        simp [getCuoralUri, hk, hinv, ht]
      · rw [getCuoralUri_entries impl cfg pk hk ht]
        simp [ht]
  · cases hk : cfg.publicKey with
    | none => simp [getCuoralUri, hk]
    | some pk =>
      by_cases ht : trim pk = ""
      · have hinv := (publicKeyInvalid_some pk).2 ht
        simp [getCuoralUri, hk, hinv, ht]
      · rw [getCuoralUri_entries impl cfg pk hk ht]
        simp [ht]

/-! ## The escape of a value, character by character -/

theorem uint32_shr_toNat (v : UInt32) (k : Nat) (hk : k < 32) :
    (v >>> (UInt32.ofNat k)).toNat = v.toNat / 2 ^ k := by
  show (v.toBitVec >>> (UInt32.mod (UInt32.ofNat k) 32).toBitVec).toNat = _
  have h : (UInt32.mod (UInt32.ofNat k) 32).toBitVec.toNat = k := by
    show ((BitVec.ofNat 32 k) % (BitVec.ofNat 32 32)).toNat = k
    simp [BitVec.toNat_umod]
    omega
  simp only [BitVec.ushiftRight_eq', BitVec.toNat_ushiftRight, Nat.shiftRight_eq_div_pow, h]
  rfl

theorem uint32_toUInt8_toNat (v : UInt32) : v.toUInt8.toNat = v.toNat % 256 := by
  simp [UInt32.toUInt8, Nat.toUInt8, UInt8.toNat, UInt8.ofNat]

theorem uint8_mask_lead (x : UInt8) (i j a : Nat) (hij : i ≤ j) (ha : 2 ^ j * a < 256)
    (hi : 2 ^ i - 1 < 256) :
    ((x &&& UInt8.ofNat (2 ^ i - 1)) ||| UInt8.ofNat (2 ^ j * a)).toNat
      = 2 ^ j * a + x.toNat % 2 ^ i := by
  show ((x.toBitVec &&& (UInt8.ofNat (2 ^ i - 1)).toBitVec) |||
    (UInt8.ofNat (2 ^ j * a)).toBitVec).toNat = _
  have h1 : (UInt8.ofNat (2 ^ i - 1)).toBitVec.toNat = 2 ^ i - 1 := by
    simp [UInt8.ofNat]; omega
  have h2 : (UInt8.ofNat (2 ^ j * a)).toBitVec.toNat = 2 ^ j * a := by
    simp [UInt8.ofNat]; omega
  rw [BitVec.toNat_or, BitVec.toNat_and, h1, h2, Nat.and_pow_two_sub_one_eq_mod, Nat.lor_comm]
  have hlt : x.toBitVec.toNat % 2 ^ i < 2 ^ j :=
    lt_of_lt_of_le (Nat.mod_lt _ (Nat.two_pow_pos i)) (Nat.pow_le_pow_right (by decide) hij)
  rw [← Nat.mul_add_lt_is_or hlt]
  rfl

theorem utf8EncodeChar_core (c : Char) :
    (String.utf8EncodeChar c).map UInt8.toNat = utf8EncodeChar c := by
  have hv : c.toNat < 0xD800 ∨ (0xDFFF < c.toNat ∧ c.toNat < 0x110000) := c.valid
  have hle : ∀ k : Nat, k < 4294967296 → (c.val ≤ UInt32.ofNat k ↔ c.toNat ≤ k) := by
    intro k hk
    rw [UInt32.le_def, BitVec.le_def]
    have : (UInt32.ofNat k).toBitVec.toNat = k := by
      simp [UInt32.ofNat]; omega
    rw [this]
    rfl
  have h6 := uint32_shr_toNat c.val 6 (by decide)
  have h12 := uint32_shr_toNat c.val 12 (by decide)
  have h18 := uint32_shr_toNat c.val 18 (by decide)
  have hn : c.val.toNat = c.toNat := rfl
  have m1 : ∀ x : UInt8, (x &&& 0x1f ||| 0xc0).toNat = 192 + x.toNat % 32 :=
    fun x => uint8_mask_lead x 5 6 3 (by decide) (by decide) (by decide)
  have m2 : ∀ x : UInt8, (x &&& 0x3f ||| 0x80).toNat = 128 + x.toNat % 64 :=
    fun x => uint8_mask_lead x 6 7 1 (by decide) (by decide) (by decide)
  have m3 : ∀ x : UInt8, (x &&& 0x0f ||| 0xe0).toNat = 224 + x.toNat % 16 :=
    fun x => uint8_mask_lead x 4 5 7 (by decide) (by decide) (by decide)
  have m4 : ∀ x : UInt8, (x &&& 0x07 ||| 0xf0).toNat = 240 + x.toNat % 8 :=
    fun x => uint8_mask_lead x 3 4 15 (by decide) (by decide) (by decide)
  have e1 : c.val ≤ 0x7f ↔ c.toNat ≤ 127 := hle 127 (by decide)
  have e2 : c.val ≤ 0x7ff ↔ c.toNat ≤ 2047 := hle 2047 (by decide)
  have e3 : c.val ≤ 0xffff ↔ c.toNat ≤ 65535 := hle 65535 (by decide)
  have s6 : (c.val >>> 6).toNat = c.toNat / 64 := h6
  have s12 : (c.val >>> 12).toNat = c.toNat / 4096 := h12
  have s18 : (c.val >>> 18).toNat = c.toNat / 262144 := h18
  unfold String.utf8EncodeChar utf8EncodeChar
  simp only [e1, e2, e3]
  by_cases c1 : c.toNat ≤ 127
  · rw [if_pos c1, if_pos (show c.toNat < 128 by omega)]
    simp only [List.map_cons, List.map_nil, uint32_toUInt8_toNat, hn]
    congr 1
    omega
  · rw [if_neg c1, if_neg (show ¬ c.toNat < 128 by omega)]
    by_cases c2 : c.toNat ≤ 2047
    · rw [if_pos c2, if_pos (show c.toNat < 2048 by omega)]
      simp only [List.map_cons, List.map_nil, m1, m2, uint32_toUInt8_toNat, hn, s6]
      congr 1
      · omega
      · congr 1
        omega
    · rw [if_neg c2, if_neg (show ¬ c.toNat < 2048 by omega)]
      by_cases c3 : c.toNat ≤ 65535
      · rw [if_pos c3, if_pos (show c.toNat < 65536 by omega)]
        simp only [List.map_cons, List.map_nil, m2, m3, uint32_toUInt8_toNat, hn, s6, s12]
        congr 1
        · omega
        · congr 1
          · omega
          · congr 1
            omega
      · rw [if_neg c3, if_neg (show ¬ c.toNat < 65536 by omega)]
        simp only [List.map_cons, List.map_nil, m2, m4, uint32_toUInt8_toNat, hn, s6, s12, s18]
        congr 1
        · omega
        · congr 1
          · omega
          · congr 1
            · omega
            · congr 1
              omega

theorem hexDigit_eq_getD (n : Nat) (h : n < 16) :
    hexDigit n = "0123456789ABCDEF".data.getD n '0' := by
  interval_cases n <;> rfl

theorem flatMap_congr_mem {α β : Type} (l : List α) (f g : α → List β)
    (h : ∀ x ∈ l, f x = g x) : l.flatMap f = l.flatMap g := by
  induction l with
  | nil => rfl
  | cons x l ih =>
    rw [List.flatMap_cons, List.flatMap_cons, h x (List.mem_cons_self _ _),
      ih (fun y hy => h y (List.mem_cons_of_mem _ hy))]

theorem flatMap_map_toNat (l : List UInt8) (g : Nat → List Char) :
    (l.map UInt8.toNat).flatMap g = l.flatMap (fun b => g b.toNat) := by
  induction l with
  | nil => rfl
  | cons x l ih => rw [List.map_cons, List.flatMap_cons, List.flatMap_cons, ih]

theorem percentEncode_core (c : Char) :
    (utf8EncodeChar c).flatMap percentEncodeByte
      = (String.utf8EncodeChar c).flatMap (fun b =>
          ['%', "0123456789ABCDEF".data.getD (b.toNat / 16) '0',
            "0123456789ABCDEF".data.getD (b.toNat % 16) '0']) := by
  rw [← utf8EncodeChar_core, flatMap_map_toNat]
  apply flatMap_congr_mem
  intro b _
  have hb : b.toNat < 256 := b.toBitVec.isLt
  rw [percentEncodeByte, hexDigit_eq_getD _ (by omega), hexDigit_eq_getD _ (by omega)]

theorem char_eq_iff_toNat (c d : Char) : c = d ↔ c.toNat = d.toNat := by
  constructor
  · intro h
    rw [h]
  · intro h
    rw [← Char.ofNat_toNat c, ← Char.ofNat_toNat d, h]

theorem isAlphanum_eq (c : Char) : c.isAlphanum = isAsciiAlnum c.toNat := by
  have hle : ∀ k : Nat, k < 4294967296 → (c.val ≤ UInt32.ofNat k ↔ c.toNat ≤ k) := by
    intro k hk
    rw [UInt32.le_def, BitVec.le_def]
    have : (UInt32.ofNat k).toBitVec.toNat = k := by
      simp [UInt32.ofNat]; omega
    rw [this]
    rfl
  have hge : ∀ k : Nat, k < 4294967296 → (c.val ≥ UInt32.ofNat k ↔ k ≤ c.toNat) := by
    intro k hk
    show UInt32.ofNat k ≤ c.val ↔ _
    rw [UInt32.le_def, BitVec.le_def]
    have : (UInt32.ofNat k).toBitVec.toNat = k := by
      simp [UInt32.ofNat]; omega
    rw [this]
    rfl
  have a1 : c.val ≥ 65 ↔ 65 ≤ c.toNat := hge 65 (by decide)
  have a2 : c.val ≤ 90 ↔ c.toNat ≤ 90 := hle 90 (by decide)
  have a3 : c.val ≥ 97 ↔ 97 ≤ c.toNat := hge 97 (by decide)
  have a4 : c.val ≤ 122 ↔ c.toNat ≤ 122 := hle 122 (by decide)
  have a5 : c.val ≥ 48 ↔ 48 ≤ c.toNat := hge 48 (by decide)
  have a6 : c.val ≤ 57 ↔ c.toNat ≤ 57 := hle 57 (by decide)
  rw [Bool.eq_iff_iff]
  simp only [Char.isAlphanum, Char.isAlpha, Char.isUpper, Char.isLower, Char.isDigit,
    isAsciiAlnum, Bool.or_eq_true, Bool.and_eq_true, decide_eq_true_eq, a1, a2, a3, a4, a5, a6]
  constructor <;> intro h <;> omega

/-- What a serialiser writes for one character, in terms of the character classes of RFC 3986 and
the UTF-8 bytes of the character. -/
theorem encodeChar_eq (impl : UrlImpl) (c : Char) :
    encodeChar impl c =
      if c.isAlphanum = true ∨ c ∈ ['*', '-', '.', '_'] ∨
          (impl ≠ .whatwg ∧ c ∈ ['!', '~', Char.ofNat 0x27, '(', ')']) then [c]
      else if c = ' ' ∧ impl ≠ .reactNative then ['+']
      else (String.utf8EncodeChar c).flatMap (fun b =>
        ['%', "0123456789ABCDEF".data.getD (b.toNat / 16) '0',
          "0123456789ABCDEF".data.getD (b.toNat % 16) '0']) := by
  have hk : isUnescaped impl c = true ↔ (c.isAlphanum = true ∨ c ∈ ['*', '-', '.', '_'] ∨
      (impl ≠ .whatwg ∧ c ∈ ['!', '~', Char.ofNat 0x27, '(', ')'])) := by
    have t1 : ('*' : Char).toNat = 0x2A := rfl
    have t2 : ('-' : Char).toNat = 0x2D := rfl
    have t3 : ('.' : Char).toNat = 0x2E := rfl
    have t4 : ('_' : Char).toNat = 0x5F := rfl
    have t5 : ('!' : Char).toNat = 0x21 := rfl
    have t6 : ('~' : Char).toNat = 0x7E := rfl
    have t7 : (Char.ofNat 0x27).toNat = 0x27 := rfl
    have t8 : ('(' : Char).toNat = 0x28 := rfl
    have t9 : (')' : Char).toNat = 0x29 := rfl
    rw [isAlphanum_eq]
    simp only [List.mem_cons, List.mem_singleton, List.not_mem_nil, or_false, char_eq_iff_toNat,
      t1, t2, t3, t4, t5, t6, t7, t8, t9]
    cases impl <;>
      simp only [isUnescaped, Bool.or_eq_true, beq_iff_eq, ne_eq, not_true_eq_false,
        false_and, or_false, reduceCtorEq, not_false_eq_true, true_and] <;> tauto
  have hs : (impl ≠ .reactNative ∧ c.toNat = 0x20) ↔ (c = ' ' ∧ impl ≠ .reactNative) := by
    rw [char_eq_iff_toNat]
    exact ⟨fun h => ⟨h.2, h.1⟩, fun h => ⟨h.2, h.1⟩⟩
  unfold encodeChar
  by_cases h1 : isUnescaped impl c = true
  · rw [if_pos h1, if_pos (hk.1 h1)]
  · rw [if_neg h1, if_neg (fun h => h1 (hk.2 h))]
    by_cases h2 : impl ≠ .reactNative ∧ c.toNat = 0x20
    · rw [if_pos h2, if_pos (hs.1 h2)]
    · rw [if_neg h2, if_neg (fun h => h2 (hs.2 h)), percentEncode_core]

/-- C3 (counterexample): the form-urlencoded serialiser, and React Native's where it replaces
`%20`, write a space as `+`, not as a percent escape; and a field supplied as the empty string is
not in the address, so decoding the query does not give it back under its name. -/
theorem getCuoralUri_roundtrip_counterexample :
    getCuoralUri .whatwg ⟨some "a b", none, none, none⟩
      = some "https://js.cuoral.com/mobile.html?auto_display=true&key=a+b" ∧
    getCuoralUri .reactNativePlus ⟨some "a b!", none, none, none⟩
      = some "https://js.cuoral.com/mobile.html?auto_display=true&key=a+b!" ∧
    (getCuoralUri .reactNative ⟨some "k", some "", none, none⟩).map
        (fun addr => (parseQuery (queryOf addr)).lookup "email") = some none ∧
    (getCuoralUri .whatwg ⟨some "k", some "", none, none⟩).map
        (fun addr => (parseQuery (queryOf addr)).lookup "email") = some none := by
  decide

/-- C3 (amended): for every config whose `publicKey` is non-empty after trimming, and for each
`URLSearchParams` serialiser:

* the address is the fixed text `https://js.cuoral.com/mobile.html?auto_display=true&key=`
  followed by the escape of `publicKey`, then `&email=`, `&first_name=`, `&last_name=` each
  followed by the escape of its own value, for the fields that are supplied and non-empty;
* the escape of any value is made character by character: ASCII letters, digits and `* - . _`
  are copied; `! ~ ' ( )` are copied by the serialisers built on `encodeURIComponent` and escaped
  by the form-urlencoded one; a space is written `+`, except by plain `encodeURIComponent`, which
  writes `%20`; every other character, `&`, `=`, `@` and all non-ASCII characters included, is
  written as `%XX` with upper-case hexadecimal digits for each byte of its UTF-8 encoding;
* decoding the query of the address gives exactly `auto_display=true`, `key` with the original
  `publicKey`, and `email`, `first_name`, `last_name` with the original value for each of these
  fields that is supplied and non-empty, in that order and nothing else;
* no space, `@` or `#` occurs in the address, its only `?` is the one before the query, and it
  has one `=` per parameter and one `&` between two parameters, so no value adds or alters a
  parameter. -/
theorem getCuoralUri_query_roundtrip (impl : UrlImpl) (cfg : IdentityConfig) (pk : String)
    (hpk : cfg.publicKey = some pk) (hne : trim pk ≠ "") :
    ∃ addr, getCuoralUri impl cfg = some addr ∧
      parseQuery (queryOf addr) = [("auto_display", "true"), ("key", pk)] ++
        fieldEntry "email" cfg.email ++ fieldEntry "first_name" cfg.firstName ++
        fieldEntry "last_name" cfg.lastName ∧
      (∀ c ∈ addr.data, c ≠ ' ' ∧ c ≠ '@' ∧ c ≠ '#') ∧
      addr.data.count '?' = 1 ∧
      addr.data.count '=' = 2 + (fieldEntry "email" cfg.email).length +
        (fieldEntry "first_name" cfg.firstName).length +
        (fieldEntry "last_name" cfg.lastName).length ∧
      addr.data.count '&' = 1 + (fieldEntry "email" cfg.email).length +
        (fieldEntry "first_name" cfg.firstName).length +
        (fieldEntry "last_name" cfg.lastName).length ∧
      encodeComponent impl "&=@" = "%26%3D%40" ∧
      encodeComponent impl " " = (match impl with
        | .reactNative => "%20" | .reactNativePlus => "+" | .whatwg => "+") ∧
      addr = "https://js.cuoral.com/mobile.html?auto_display=true&key=" ++
        encodeComponent impl pk ++ fieldText impl "&email=" cfg.email ++
        fieldText impl "&first_name=" cfg.firstName ++
        fieldText impl "&last_name=" cfg.lastName ∧
      (∀ v : String, (encodeComponent impl v).data = v.data.flatMap (fun c =>
        if c.isAlphanum = true ∨ c ∈ ['*', '-', '.', '_'] ∨
            (impl ≠ .whatwg ∧ c ∈ ['!', '~', Char.ofNat 0x27, '(', ')']) then [c]
        else if c = ' ' ∧ impl ≠ .reactNative then ['+']
        else (String.utf8EncodeChar c).flatMap (fun b =>
          ['%', "0123456789ABCDEF".data.getD (b.toNat / 16) '0',
            "0123456789ABCDEF".data.getD (b.toNat % 16) '0']))) := by
  refine ⟨_, getCuoralUri_entries impl cfg pk hpk hne, ?_, ?_, ?_, ?_, ?_, ?_, ?_, ?_, ?_⟩
  · rw [queryOf_address, parseQuery_serialize]
    intro x hx
    rcases serialize_mem impl _ x hx with h | h | h
    · exact (isComponentChar_ne x h).2.2.1
    · rw [h]; decide
    · rw [h]; decide
  · intro c hc
    have hbase : ∀ x ∈ "https://js.cuoral.com/mobile.html?".data, x ≠ ' ' ∧ x ≠ '@' ∧ x ≠ '#' := by
      decide
    rcases address_mem _ c hc with h | h
    · exact hbase c h
    · rcases serialize_mem impl _ c h with h2 | h2 | h2
      · have := isComponentChar_ne c h2
        exact ⟨this.2.2.2.2.1, this.2.2.2.2.2, this.2.2.1⟩
      · rw [h2]; decide
      · rw [h2]; decide
  · have hc : "https://js.cuoral.com/mobile.html?".data.count '?' = 1 := by decide
    rw [address_count, count_serialize impl _ _ (by decide), hc, if_neg (by decide),
      if_neg (by decide)]
  · have hc : "https://js.cuoral.com/mobile.html?".data.count '=' = 0 := by decide
    rw [address_count, count_serialize impl _ _ (by decide), hc, if_pos (by decide)]
    simp only [List.length_append, List.length_cons, List.length_nil]
    omega
  · have hc : "https://js.cuoral.com/mobile.html?".data.count '&' = 0 := by decide
    rw [address_count, count_serialize impl _ _ (by decide), hc, if_neg (by decide),
      if_pos (by decide)]
    simp only [List.length_append, List.length_cons, List.length_nil]
    omega
  · cases impl <;> decide
  · cases impl <;> decide
  · exact Option.some.inj ((getCuoralUri_entries impl cfg pk hpk hne).symm.trans
      (getCuoralUri_text impl cfg pk hpk hne))
  · intro v
    exact flatMap_congr_mem _ _ _ (fun c _ => encodeChar_eq impl c)

/-- C3 (witness): a key holding `&`, `=`, a space and `@`, and an email holding `+` and `@`;
and a key holding a non-ASCII letter and angle brackets. -/
theorem getCuoralUri_query_roundtrip_witness :
    trim "a&b=c d@e" ≠ "" ∧
    (∃ addr, getCuoralUri .reactNative ⟨some "a&b=c d@e", some "x+y@z.com", none, none⟩ = some addr ∧
      parseQuery (queryOf addr)
        = [("auto_display", "true"), ("key", "a&b=c d@e"), ("email", "x+y@z.com")]) ∧
    getCuoralUri .reactNative ⟨some "a&b=c d@e", some "x+y@z.com", none, none⟩
      = some ("https://js.cuoral.com/mobile.html?auto_display=true&key=a%26b%3Dc%20d%40e" ++
          "&email=x%2By%40z.com") ∧
    getCuoralUri .reactNativePlus ⟨some "a&b=c d@e", some "x+y@z.com", none, none⟩
      = some ("https://js.cuoral.com/mobile.html?auto_display=true&key=a%26b%3Dc+d%40e" ++
          "&email=x%2By%40z.com") ∧
    getCuoralUri .whatwg ⟨some "<é>", none, none, none⟩
      = some "https://js.cuoral.com/mobile.html?auto_display=true&key=%3C%C3%A9%3E" :=
  ⟨by decide,
    (getCuoralUri_query_roundtrip .reactNative ⟨some "a&b=c d@e", some "x+y@z.com", none, none⟩
      "a&b=c d@e" rfl (by decide)).imp (fun _ h => ⟨h.1, h.2.1⟩),
    by decide, by decide, by decide⟩

/-! ## Claims about the navigation gate -/

theorem startsWith_iff (s p : String) : startsWith s p = true ↔ ∃ r : String, s = p ++ r := by
  rw [startsWith, List.isPrefixOf_iff_prefix]
  constructor
  · rintro ⟨t, ht⟩
    refine ⟨⟨t⟩, String.ext ?_⟩
    rw [String.data_append, ← ht]
  · rintro ⟨r, hr⟩
    exact ⟨r.data, by rw [hr, String.data_append]⟩

/-- C4 (counterexample): `about:blank#x` is neither under the trusted prefix nor equal to
`about:blank`, yet the handler keeps it inside and opens nothing. -/
theorem onShouldStartLoadWithRequest_blank_counterexample :
    "about:blank#x" ≠ "about:blank" ∧
    startsWith "about:blank#x" "https://js.cuoral.com/" = false ∧
    onShouldStartLoadWithRequest "about:blank#x" = (true, []) := by
  decide

/-- C4 (amended): for every requested address, the handler returns `true` and opens nothing when
the address starts with `https://js.cuoral.com/` or starts with `about:blank`; for every other
address it passes that unchanged address to `Linking.openURL` exactly once and returns `false`.
`https://js.cuoral.com/x` stays inside and `https://example.com` is opened externally. -/
theorem onShouldStartLoadWithRequest_policy (url : String) :
    (((∃ r : String, url = "https://js.cuoral.com/" ++ r) ∨
        (∃ r : String, url = "about:blank" ++ r)) →
      onShouldStartLoadWithRequest url = (true, [])) ∧
    (¬ ((∃ r : String, url = "https://js.cuoral.com/" ++ r) ∨
        (∃ r : String, url = "about:blank" ++ r)) →
      onShouldStartLoadWithRequest url = (false, [url])) ∧
    onShouldStartLoadWithRequest "https://js.cuoral.com/x" = (true, []) ∧
    onShouldStartLoadWithRequest "about:blank" = (true, []) ∧
    onShouldStartLoadWithRequest "https://example.com" = (false, ["https://example.com"]) := by
  refine ⟨?_, ?_, by decide, by decide, by decide⟩
  · intro h
    rw [← startsWith_iff, ← startsWith_iff] at h
    have hb : (startsWith url "https://js.cuoral.com/" || startsWith url "about:blank") = true := by
      rw [Bool.or_eq_true]
      exact h
    rw [onShouldStartLoadWithRequest, if_pos hb]
  · intro h
    rw [← startsWith_iff, ← startsWith_iff, ← Bool.or_eq_true] at h
    rw [onShouldStartLoadWithRequest, if_neg h]

/-- C4 (witness): an address under the trusted prefix, one that starts with `about:blank`, and a
malformed one. -/
theorem onShouldStartLoadWithRequest_policy_witness :
    onShouldStartLoadWithRequest "https://js.cuoral.com/chat?id=1" = (true, []) ∧
    onShouldStartLoadWithRequest "about:blank#x" = (true, []) ∧
    onShouldStartLoadWithRequest "not a url" = (false, ["not a url"]) :=
  ⟨(onShouldStartLoadWithRequest_policy "https://js.cuoral.com/chat?id=1").1
      (Or.inl ⟨"chat?id=1", by decide⟩),
    (onShouldStartLoadWithRequest_policy "about:blank#x").1 (Or.inr ⟨"#x", by decide⟩),
    (onShouldStartLoadWithRequest_policy "not a url").2.1 (by
      intro h
      rw [← startsWith_iff, ← startsWith_iff] at h
      revert h
      decide)⟩

/-- C10: every address `getCuoralUri` returns passes the widget's own navigation gate: the
handler returns `true` and opens nothing. -/
theorem getCuoralUri_passes_gate (impl : UrlImpl) (cfg : IdentityConfig) (addr : String)
    (h : getCuoralUri impl cfg = some addr) :
    onShouldStartLoadWithRequest addr = (true, []) := by
  have hform : ∃ q : String, addr = "https://js.cuoral.com/mobile.html" ++ "?" ++ q := by
    cases hk : cfg.publicKey with
    | none => simp [getCuoralUri, hk] at h
    | some pk =>
      by_cases ht : trim pk = ""
      · have hinv := (publicKeyInvalid_some pk).2 ht
        simp [getCuoralUri, hk, hinv] at h
      · rw [getCuoralUri_entries impl cfg pk hk ht] at h
        exact ⟨_, (Option.some.inj h).symm⟩
  obtain ⟨q, hq⟩ := hform
  have hs : startsWith addr "https://js.cuoral.com/" = true := by
    rw [startsWith_iff]
    refine ⟨"mobile.html" ++ "?" ++ q, ?_⟩
    have hb : "https://js.cuoral.com/mobile.html" = "https://js.cuoral.com/" ++ "mobile.html" := by
      decide
    rw [hq, hb]
    simp only [String.append_assoc]
  rw [onShouldStartLoadWithRequest, hs, Bool.true_or, if_pos rfl]

/-- C10 (witness): the address of scenario 1 passes the gate. -/
theorem getCuoralUri_passes_gate_witness :
    getCuoralUri .reactNative ⟨some "abc123", some "a@b.com", none, none⟩
      = some "https://js.cuoral.com/mobile.html?auto_display=true&key=abc123&email=a%40b.com" ∧
    onShouldStartLoadWithRequest
      "https://js.cuoral.com/mobile.html?auto_display=true&key=abc123&email=a%40b.com"
      = (true, []) :=
  ⟨by decide, getCuoralUri_passes_gate .reactNative ⟨some "abc123", some "a@b.com", none, none⟩ _
    (by decide)⟩

/-! ## Claims about the session state -/

theorem append_ne_empty (a b : String) (h : a ≠ "") : a ++ b ≠ "" := by
  intro he
  apply h
  have h1 := congrArg String.data he
  rw [String.data_append] at h1
  exact String.ext (List.append_eq_nil.1 h1).1

theorem sessionState_error (showWidget isLoading : Bool) (m : String) (hm : m ≠ "") :
    sessionState showWidget ⟨isLoading, some m⟩ = .error m := by
  simp [sessionState, truthy, hm]

theorem publicKeyInvalid_eq_false (cfg : IdentityConfig) :
    publicKeyInvalid cfg.publicKey = false ↔ ∃ pk, cfg.publicKey = some pk ∧ trim pk ≠ "" := by
  cases hk : cfg.publicKey with
  | none => simp [publicKeyInvalid]
  | some pk =>
    rw [Bool.eq_false_iff, Ne, publicKeyInvalid_some]
    simp

/-- C5 (counterexample): for `publicKey` `""` the reason ends with a full stop, so it is not the
string of the claim. -/
theorem construct_empty_key_counterexample :
    sessionState true (construct ⟨some "", none, none, none⟩)
      = .error "publicKey must not be empty." ∧
    sessionState true (construct ⟨some "", none, none, none⟩)
      ≠ .error "publicKey must not be empty" ∧
    getCuoralUri .reactNative ⟨some "", none, none, none⟩ = none := by
  decide

/-- C5 (amended): a freshly mounted widget is Loading (`isLoading` true, no error reason) when
`publicKey` is non-empty after trimming; otherwise it is Error with reason exactly
`publicKey must not be empty.` (with the full stop) and no address is constructed. -/
theorem construct_state (impl : UrlImpl) (cfg : IdentityConfig) :
    ((∃ pk, cfg.publicKey = some pk ∧ trim pk ≠ "") →
      construct cfg = ⟨true, none⟩ ∧ sessionState true (construct cfg) = .loading) ∧
    (¬ (∃ pk, cfg.publicKey = some pk ∧ trim pk ≠ "") →
      construct cfg = ⟨true, some "publicKey must not be empty."⟩ ∧
      (∀ showWidget, sessionState showWidget (construct cfg)
        = .error "publicKey must not be empty.") ∧
      getCuoralUri impl cfg = none) := by
  constructor
  · intro h
    have hv := (publicKeyInvalid_eq_false cfg).2 h
    have hc : construct cfg = ⟨true, none⟩ := by
      simp [construct, publicKeyEffect, hv, initialState]
    rw [hc]
    exact ⟨rfl, rfl⟩
  · intro h
    have hv : publicKeyInvalid cfg.publicKey = true := by
      rw [← Bool.not_eq_false]
      exact fun hf => h ((publicKeyInvalid_eq_false cfg).1 hf)
    have hc : construct cfg = ⟨true, some "publicKey must not be empty."⟩ := by
      simp [construct, publicKeyEffect, hv, initialState]
    rw [hc]
    refine ⟨rfl, fun sw => sessionState_error sw true _ (by decide), ?_⟩
    cases hk : cfg.publicKey with
    | none => simp [getCuoralUri, hk]
    | some pk =>
      rw [hk] at hv
      simp [getCuoralUri, hk, hv]

/-- C5 (witness): a valid key, and a key made of white space only. -/
theorem construct_state_witness :
    (construct ⟨some "abc123", none, none, none⟩ = ⟨true, none⟩ ∧
      sessionState true (construct ⟨some "abc123", none, none, none⟩) = .loading) ∧
    (construct ⟨some " \t", none, none, none⟩ = ⟨true, some "publicKey must not be empty."⟩ ∧
      (∀ showWidget, sessionState showWidget (construct ⟨some " \t", none, none, none⟩)
        = .error "publicKey must not be empty.") ∧
      getCuoralUri .whatwg ⟨some " \t", none, none, none⟩ = none) :=
  ⟨(construct_state .whatwg ⟨some "abc123", none, none, none⟩).1 ⟨"abc123", rfl, by decide⟩,
    (construct_state .whatwg ⟨some " \t", none, none, none⟩).2 (by
      rintro ⟨pk, hpk, hne⟩
      cases hpk
      revert hne
      decide)⟩

/-- C6 (counterexample): a session in Error after an HTTP failure, reconfigured with the same
`publicKey` and a new email, stays in that Error although `construct` gives Loading; and a Loaded
session reconfigured with a different valid `publicKey` stays Loaded. -/
theorem reconfigure_counterexample :
    sessionState true
      (reconfigure ⟨some "k", none, none, none⟩ ⟨some "k", some "a@b.com", none, none⟩
        (onHttpError 404 "Not Found" (construct ⟨some "k", none, none, none⟩)))
      = .error "HTTP Error: 404 - Not Found" ∧
    sessionState true (construct ⟨some "k", some "a@b.com", none, none⟩) = .loading ∧
    sessionState true
      (reconfigure ⟨some "k1", none, none, none⟩ ⟨some "k2", none, none, none⟩
        (onLoadEnd (construct ⟨some "k1", none, none, none⟩)))
      = .loaded ∧
    sessionState true (construct ⟨some "k2", none, none, none⟩) = .loading := by
  decide

/-- C6 (amended): reconfiguring keeps the state and re-runs only the `publicKey` validation, and
only when `publicKey` changed.  When it changed, the error reason becomes the one `construct`
gives for the new config and `isLoading` keeps its previous value; if the new `publicKey` is
invalid the session shows the same Error as `construct` for the new config, whatever the state
before.  When `publicKey` is unchanged the state is unchanged. -/
theorem reconfigure_state (oldCfg newCfg : IdentityConfig) (st : WidgetState) :
    (oldCfg.publicKey ≠ newCfg.publicKey →
      (reconfigure oldCfg newCfg st).errorMessage = (construct newCfg).errorMessage ∧
      (reconfigure oldCfg newCfg st).isLoading = st.isLoading ∧
      (¬ (∃ pk, newCfg.publicKey = some pk ∧ trim pk ≠ "") → ∀ showWidget,
        sessionState showWidget (reconfigure oldCfg newCfg st)
          = sessionState showWidget (construct newCfg))) ∧
    (oldCfg.publicKey = newCfg.publicKey → reconfigure oldCfg newCfg st = st) := by
  constructor
  · intro hne
    have hr : reconfigure oldCfg newCfg st = publicKeyEffect newCfg st := by
      rw [reconfigure, if_neg hne]
    rw [hr]
    refine ⟨?_, ?_, ?_⟩
    · unfold construct publicKeyEffect
      split_ifs <;> rfl
    · unfold publicKeyEffect
      split_ifs <;> rfl
    · intro h sw
      have hv : publicKeyInvalid newCfg.publicKey = true := by
        rw [← Bool.not_eq_false]
        exact fun hf => h ((publicKeyInvalid_eq_false newCfg).1 hf)
      simp only [construct, publicKeyEffect, hv, if_true, initialState]
      rw [sessionState_error sw _ _ (by decide), sessionState_error sw _ _ (by decide)]
  · intro he
    rw [reconfigure, if_pos he]

/-- C6 (witness): a Loaded session reconfigured with an empty key shows the validation Error and
keeps `isLoading` false; reconfigured with the same key and a new email it is unchanged. -/
theorem reconfigure_state_witness :
    ((reconfigure ⟨some "k1", none, none, none⟩ ⟨some "", none, none, none⟩
        (onLoadEnd (construct ⟨some "k1", none, none, none⟩))).errorMessage
        = (construct ⟨some "", none, none, none⟩).errorMessage ∧
      (reconfigure ⟨some "k1", none, none, none⟩ ⟨some "", none, none, none⟩
        (onLoadEnd (construct ⟨some "k1", none, none, none⟩))).isLoading = false ∧
      ∀ showWidget, sessionState showWidget
        (reconfigure ⟨some "k1", none, none, none⟩ ⟨some "", none, none, none⟩
          (onLoadEnd (construct ⟨some "k1", none, none, none⟩)))
        = sessionState showWidget (construct ⟨some "", none, none, none⟩)) ∧
    reconfigure ⟨some "k1", none, none, none⟩ ⟨some "k1", some "a@b.com", none, none⟩
        (onLoadEnd (construct ⟨some "k1", none, none, none⟩))
      = onLoadEnd (construct ⟨some "k1", none, none, none⟩) :=
  ⟨⟨((reconfigure_state ⟨some "k1", none, none, none⟩ ⟨some "", none, none, none⟩
        (onLoadEnd (construct ⟨some "k1", none, none, none⟩))).1 (by decide)).1,
      ((reconfigure_state ⟨some "k1", none, none, none⟩ ⟨some "", none, none, none⟩
        (onLoadEnd (construct ⟨some "k1", none, none, none⟩))).1 (by decide)).2.1,
      ((reconfigure_state ⟨some "k1", none, none, none⟩ ⟨some "", none, none, none⟩
        (onLoadEnd (construct ⟨some "k1", none, none, none⟩))).1 (by decide)).2.2 (by
          rintro ⟨pk, hpk, hne⟩
          cases hpk
          revert hne
          decide)⟩,
    (reconfigure_state ⟨some "k1", none, none, none⟩ ⟨some "k1", some "a@b.com", none, none⟩
      (onLoadEnd (construct ⟨some "k1", none, none, none⟩))).2 rfl⟩

/-- C7 (counterexample): the reason written by `onError` reads `Error loading Cuoral widget`,
not `Error loading widget`. -/
theorem onError_reason_counterexample :
    sessionState true (onError "net::ERR_FAILED" (-2) (construct ⟨some "k", none, none, none⟩))
      = .error "Error loading Cuoral widget: net::ERR_FAILED (Code: -2)" ∧
    sessionState true (onError "net::ERR_FAILED" (-2) (construct ⟨some "k", none, none, none⟩))
      ≠ .error "Error loading widget: net::ERR_FAILED (Code: -2)" := by
  decide

/-- C7 (amended): for every description and code, `onError` received in state Loading moves the
session to Error with reason exactly `Error loading Cuoral widget: <description> (Code: <code>)`,
and the session is no longer loading. -/
theorem onError_from_loading (st : WidgetState) (description : String) (code : Int)
    (h : sessionState true st = .loading) :
    sessionState true (onError description code st)
      = .error ("Error loading Cuoral widget: " ++ description ++ " (Code: " ++
          numberToString code ++ ")") ∧
    (onError description code st).isLoading = false ∧
    sessionState true (onError description code st) ≠ sessionState true st := by
  have hs : sessionState true (onError description code st)
      = .error ("Error loading Cuoral widget: " ++ description ++ " (Code: " ++
          numberToString code ++ ")") := by
    refine sessionState_error true false _ ?_
    simp only [String.append_assoc]
    exact append_ne_empty _ _ (by decide)
  refine ⟨hs, rfl, ?_⟩
  rw [hs, h]
  exact fun hc => SessionState.noConfusion hc

/-- C7 (witness): a load failure with code `-2` on a freshly mounted widget. -/
theorem onError_from_loading_witness :
    sessionState true (construct ⟨some "k", none, none, none⟩) = .loading ∧
    sessionState true (onError "net::ERR_FAILED" (-2) (construct ⟨some "k", none, none, none⟩))
      = .error "Error loading Cuoral widget: net::ERR_FAILED (Code: -2)" ∧
    (onError "net::ERR_FAILED" (-2) (construct ⟨some "k", none, none, none⟩)).isLoading = false :=
  ⟨by decide,
    (onError_from_loading (construct ⟨some "k", none, none, none⟩) "net::ERR_FAILED" (-2)
      (by decide)).1.trans (by decide),
    (onError_from_loading (construct ⟨some "k", none, none, none⟩) "net::ERR_FAILED" (-2)
      (by decide)).2.1⟩

/-- C8: for every status code and description, `onHttpError` received in state Loading moves the
session to Error with reason exactly `HTTP Error: <status> - <description>`, and the session is no
longer loading. -/
theorem onHttpError_from_loading (st : WidgetState) (statusCode : Int) (description : String)
    (h : sessionState true st = .loading) :
    sessionState true (onHttpError statusCode description st)
      = .error ("HTTP Error: " ++ numberToString statusCode ++ " - " ++ description) ∧
    (onHttpError statusCode description st).isLoading = false ∧
    sessionState true (onHttpError statusCode description st) ≠ sessionState true st := by
  have hs : sessionState true (onHttpError statusCode description st)
      = .error ("HTTP Error: " ++ numberToString statusCode ++ " - " ++ description) := by
    refine sessionState_error true false _ ?_
    simp only [String.append_assoc]
    exact append_ne_empty _ _ (by decide)
  refine ⟨hs, rfl, ?_⟩
  rw [hs, h]
  exact fun hc => SessionState.noConfusion hc

/-- C8 (witness): scenario 5 of the specification, `http-error(404, "Not Found")` in Loading. -/
theorem onHttpError_from_loading_witness :
    sessionState true (construct ⟨some "k", none, none, none⟩) = .loading ∧
    sessionState true (onHttpError 404 "Not Found" (construct ⟨some "k", none, none, none⟩))
      = .error "HTTP Error: 404 - Not Found" :=
  ⟨by decide,
    (onHttpError_from_loading (construct ⟨some "k", none, none, none⟩) 404 "Not Found"
      (by decide)).1.trans (by decide)⟩

/-- C9: from every state (Loading, Loaded, or Error with any reason, in particular the Error left
by `onError` or `onHttpError`), `onLoadStart` yields Loading with the error reason cleared:
`isLoading` true and `errorMessage` null. -/
theorem onLoadStart_loading (st : WidgetState) :
    onLoadStart st = ⟨true, none⟩ ∧
    sessionState true (onLoadStart st) = .loading ∧
    (∀ (description : String) (code : Int),
      sessionState true (onLoadStart (onError description code st)) = .loading) := by
  exact ⟨rfl, rfl, fun _ _ => rfl⟩

end Cuoral
